import Mathlib

/-!
Shallow embedding of `full_outline_extractor.py`: a PDF outline extractor
that infers a title and a three-level heading outline from font typography.
The document-access layer (PyMuPDF) is modelled by explicit data for pages,
blocks, lines and spans; the three core functions
(`analyze_document_styles`, `extract_title`, `build_outline`) are
translated directly from the source.
-/

namespace OutlineExtractor

/-! ### Python string primitives used by the source -/

/-- Python `str.strip()`: drop whitespace from both ends. -/
def pyStrip (s : String) : String :=
  ⟨((s.data.dropWhile Char.isWhitespace).reverse.dropWhile Char.isWhitespace).reverse⟩

/-- Python `str.lower()` (ASCII-adequate model). -/
def pyLower (s : String) : String :=
  ⟨s.data.map Char.toLower⟩

/-- Membership of `needle` as a contiguous sublist of `hay`. -/
def containsSub (needle : List Char) : List Char → Bool
  | [] => needle.isEmpty
  | c :: cs => needle.isPrefixOf (c :: cs) || containsSub needle cs

/-- Python `needle in hay` substring test. -/
def hasSubstr (hay needle : String) : Bool :=
  containsSub needle.data hay.data

/-- One step of whitespace-run collapsing; the flag records whether the
previous character was whitespace (so the run emits a single space). -/
def collapseWSAux : Bool → List Char → List Char
  | _, [] => []
  | inRun, c :: cs =>
    if c.isWhitespace then
      if inRun then collapseWSAux true cs else ' ' :: collapseWSAux true cs
    else c :: collapseWSAux false cs

/-- Python `re.sub(r'\s+', ' ', s)`: collapse each whitespace run to one space. -/
def pyCollapseWS (s : String) : String :=
  ⟨collapseWSAux false s.data⟩

/-- Python `sep.join(parts)`. -/
def joinSep (sep : String) : List String → String
  | [] => ""
  | [s] => s
  | s :: rest => s ++ sep ++ joinSep sep rest

/-- Python `s.replace("\n", " ")` (single-character pattern, so a map). -/
def replaceNL (s : String) : String :=
  ⟨s.data.map (fun c => if c = '\n' then ' ' else c)⟩

/-- Python 3 `round` on a real value: round half to even, as a function on
ℚ. With `f = ⌊q⌋` and `d = q.den > 0`, the fractional part `q - f` compares
to 1/2 exactly as `2 * q.num` compares to `2 * f * d + d` (multiply through
by `2 * d`); the integer form keeps the definition kernel-computable. -/
def pyRound (q : ℚ) : ℤ :=
  let f : ℤ := Rat.floor q
  let d : ℤ := (q.den : ℤ)
  if 2 * q.num < 2 * f * d + d then f
  else if 2 * f * d + d < 2 * q.num then f + 1
  else if f % 2 = 0 then f else f + 1

/-! ### Data model: the parsed document representation -/

/-- A text span: contiguous run of characters in one style. -/
structure Span where
  text : String
  size : ℚ
  font : String
  deriving DecidableEq, Repr

/-- A visual text line: ordered spans. -/
structure Line where
  spans : List Span
  deriving DecidableEq, Repr

/-- A block; `type = 0` marks a text block. -/
structure Block where
  type : ℕ
  lines : List Line
  deriving DecidableEq, Repr

/-- A page: ordered blocks. -/
structure Page where
  blocks : List Block
  deriving DecidableEq, Repr

/-- The parsed document: ordered pages. -/
structure Doc where
  pages : List Page
  deriving DecidableEq, Repr

/-- StyleKey: `(round(span['size']), "bold" in span['font'].lower())`. -/
abbrev StyleKey := ℤ × Bool

/-- The style key of a span, as computed at lines 20 and 92 of the source. -/
def spanStyleKey (s : Span) : StyleKey :=
  (pyRound s.size, hasSubstr (pyLower s.font) "bold")

/-- An outline entry `{"level": .., "text": .., "page": ..}`. -/
structure OutlineEntry where
  level : String
  text : String
  page : ℕ
  deriving DecidableEq, Repr

/-- The per-document result `{"title": .., "outline": ..}`. -/
structure Result where
  title : String
  outline : List OutlineEntry
  deriving DecidableEq, Repr

/-! ### Style profiler (`analyze_document_styles`) -/

/-- The style keys of all substantial spans (stripped length > 1) in text
blocks of pages 2..N, in scan order: the increments of the `Counter`. -/
def styleObservations (doc : Doc) : List StyleKey :=
  (doc.pages.drop 1).flatMap fun page =>
    page.blocks.flatMap fun block =>
      if block.type = 0 then
        block.lines.flatMap fun line =>
          (line.spans.filter fun s => 1 < (pyStrip s.text).length).map spanStyleKey
      else []

/-- Insertion into the `Counter`'s key sequence: Python dicts keep first
insertion order, so a key already present is left where it is. -/
def insertKey (l : List StyleKey) (k : StyleKey) : List StyleKey :=
  if k ∈ l then l else l ++ [k]

/-- `styles.keys()`: distinct observed style keys in first-occurrence order. -/
def styleKeys (doc : Doc) : List StyleKey :=
  (styleObservations doc).foldl insertKey []

/-- Stable descending insertion by rounded size: an element is placed
before the first element of not-larger size, so earlier elements precede
later ones of equal size, exactly as Python's stable sort does. -/
def insertDesc (x : StyleKey) : List StyleKey → List StyleKey
  | [] => [x]
  | y :: ys => if y.1 ≤ x.1 then x :: y :: ys else y :: insertDesc x ys

/-- Stable insertion sort, descending by rounded size. -/
def sortDesc : List StyleKey → List StyleKey
  | [] => []
  | x :: xs => insertDesc x (sortDesc xs)

/-- `sorted(styles.keys(), key=lambda x: x[0], reverse=True)`: stable sort
by rounded size, descending. -/
def sortedStyles (doc : Doc) : List StyleKey :=
  sortDesc (styleKeys doc)

/-- The heading level names, in rank order. -/
def headingLevels : List String := ["H1", "H2", "H3"]

/-- `analyze_document_styles` (source lines 7–42): histogram over pages
2..N, outlier rejection when more than 2 distinct styles, then mapping of
the ranked styles to H1/H2/H3. The `Counter` counts are never consulted, so
the StyleMap is a function of the ordered key set alone. -/
def analyze_document_styles (doc : Doc) : List (StyleKey × String) :=
  if styleKeys doc = [] then []
  else
    let sorted_styles := sortedStyles doc
    let final_heading_styles :=
      if 2 < sorted_styles.length then sorted_styles.drop 1 else sorted_styles
    final_heading_styles.zip headingLevels

/-- Python dict lookup on the StyleMap (first matching key). -/
def mapLookup : List (StyleKey × String) → StyleKey → Option String
  | [], _ => none
  | (k, v) :: rest, key => if key = k then some v else mapLookup rest key

/-! ### Title extractor (`extract_title`) -/

/-- The `max_size` fold of source lines 53–58: largest rounded span size in
text blocks, starting from 0. -/
def maxSizeFold (blocks : List Block) : ℤ :=
  blocks.foldl
    (fun m block =>
      if block.type = 0 then
        block.lines.foldl
          (fun m line =>
            line.spans.foldl
              (fun m span => if m < pyRound span.size then pyRound span.size else m)
              m)
          m
      else m)
    0

/-- The title parts of source lines 62–68: per line, the concatenation of
the texts of the spans at `max_size`, kept when non-empty after stripping. -/
def titleParts (blocks : List Block) (max_size : ℤ) : List String :=
  blocks.flatMap fun block =>
    if block.type = 0 then
      block.lines.filterMap fun line =>
        let line_text :=
          pyStrip (joinSep ""
            ((line.spans.filter fun s => pyRound s.size = max_size).map Span.text))
        if line_text = "" then none else some line_text
    else []

/-- `extract_title` (source lines 45–69). `doc[0]` raises on an empty
document, modelled by `none`. -/
def extract_title (doc : Doc) : Option String :=
  match doc.pages with
  | [] => none
  | first_page :: _ =>
    let blocks := first_page.blocks
    let max_size := maxSizeFold blocks
    if max_size = 0 then some "Untitled"
    else some (pyStrip (replaceNL (joinSep " " (titleParts blocks max_size))))

/-! ### Outline builder (`build_outline`) -/

/-- The normalized text of a line (source lines 87–88): strip each span,
join with single spaces, strip, collapse whitespace runs. -/
def lineText (line : Line) : String :=
  pyCollapseWS (pyStrip (joinSep " " (line.spans.map fun s => pyStrip s.text)))

/-- The `(page_num, line)` pairs visited by the scan of source lines 80–84:
pages enumerated from 1, text blocks only, lines in order. -/
def docLines (doc : Doc) : List (ℕ × Line) :=
  (List.enumFrom 1 doc.pages).flatMap fun pp =>
    pp.2.blocks.flatMap fun block =>
      if block.type = 0 then block.lines.map (fun line => (pp.1, line)) else []

/-- The loop body of source lines 85–104 for a single line: skip empty or
short lines and unrecognized styles; otherwise merge a "syllabus" line into
a preceding "overview" entry, or append with adjacent-duplicate
suppression. -/
def outlineStep (style_map : List (StyleKey × String))
    (outline : List OutlineEntry) (pl : ℕ × Line) : List OutlineEntry :=
  match pl.2.spans with
  | [] => outline
  | span :: _ =>
    let line_text := lineText pl.2
    if line_text.length < 3 then outline
    else
      match mapLookup style_map (spanStyleKey span) with
      | none => outline
      | some level =>
        match outline.getLast? with
        | none => [⟨level, line_text, pl.1⟩]
        | some prev =>
          if pyLower line_text = "syllabus" ∧ hasSubstr (pyLower prev.text) "overview" then
            outline.dropLast ++ [{ prev with text := prev.text ++ line_text }]
          else if prev.text ≠ line_text then outline ++ [⟨level, line_text, pl.1⟩]
          else outline

/-- `build_outline` (source lines 72–105): early return on an empty
StyleMap, else fold the loop body over the document's lines in scan
order. -/
def build_outline (doc : Doc) (style_map : List (StyleKey × String)) :
    List OutlineEntry :=
  if style_map = [] then []
  else (docLines doc).foldl (outlineStep style_map) []

/-- The per-document pipeline of `process_pdf` (source lines 118–122),
after the document has been opened. -/
def runPipeline (doc : Doc) : Option Result :=
  match extract_title doc with
  | none => none
  | some title => some ⟨title, build_outline doc (analyze_document_styles doc)⟩

/-! ### Spec-side definitions (for refinement statements) -/

/-- All spans of the text blocks of a page, in document order. -/
def pageSpans (blocks : List Block) : List Span :=
  blocks.flatMap fun b => if b.type = 0 then b.lines.flatMap Line.spans else []

/-- Transcription of the spec's title formula: the page-wide maximum
rounded size over the spans of page 1's text blocks; per line, the
no-separator concatenation of the texts of exactly the spans at that
maximum, kept when non-empty after stripping; the parts joined by single
spaces, newlines replaced by spaces, and the whole stripped. -/
def titleSpec (blocks : List Block) : Option String :=
  match ((pageSpans blocks).map fun s => pyRound s.size).max? with
  | none => none
  | some m =>
    let parts := blocks.flatMap fun b =>
      if b.type = 0 then
        b.lines.filterMap fun line =>
          let t := pyStrip (joinSep ""
            ((line.spans.filter fun s => pyRound s.size = m).map Span.text))
          if t = "" then none else some t
      else []
    some (pyStrip (replaceNL (joinSep " " parts)))

/-- No string held by the option contains a newline character. -/
def noNewline (o : Option String) : Prop :=
  ∀ t ∈ o, '\n' ∉ t.data

instance : DecidablePred noNewline := fun o =>
  inferInstanceAs (Decidable (∀ t ∈ o, '\n' ∉ t.data))

/-- No span in a text block of the page has rounded size at least 1. -/
def noLargeSpan (p : Page) : Prop :=
  ∀ s ∈ pageSpans p.blocks, pyRound s.size < 1

instance : DecidablePred noLargeSpan := fun p =>
  inferInstanceAs (Decidable (∀ s ∈ pageSpans p.blocks, pyRound s.size < 1))

/-! ### Concrete documents used as counterexamples and witnesses -/

/-- Shorthand for a span with a regular (non-bold) font. -/
def mkSpan (t : String) (sz : ℚ) : Span := ⟨t, sz, "Regular"⟩

/-- A one-entry StyleMap recognizing size-10 non-bold lines as H1. -/
def mapH1 : List (StyleKey × String) := [((10, false), "H1")]

/-- C1 witness document: page 2 shows four distinct styles. -/
def wdocC1 : Doc := ⟨[
  ⟨[⟨0, [⟨[mkSpan "Title" 20]⟩]⟩]⟩,
  ⟨[⟨0, [⟨[mkSpan "banner" 20]⟩, ⟨[mkSpan "chapter" 16]⟩,
         ⟨[mkSpan "section" 13]⟩, ⟨[mkSpan "body" 10]⟩]⟩]⟩]⟩

/-- C2 counterexample document: an "overview" entry exists but is not the
last entry when the "Syllabus" line is scanned. -/
def cdocC2 : Doc := ⟨[
  ⟨[⟨0, [⟨[mkSpan "A Overview" 10]⟩, ⟨[mkSpan "Bcd" 10]⟩,
         ⟨[mkSpan "Syllabus" 10]⟩]⟩]⟩]⟩

/-- The "Syllabus" heading line of the merge heuristic. -/
def lnSyl : Line := ⟨[mkSpan "Syllabus" 10]⟩

/-- C2 witness: the outline entry preceding the "Syllabus" line. -/
def wprevC2 : OutlineEntry := ⟨"H1", "A Course Overview", 1⟩

/-- C3 counterexample document: the merge heuristic manufactures two
adjacent entries with identical text. -/
def cdocC3 : Doc := ⟨[
  ⟨[⟨0, [⟨[mkSpan "Ab OverviewSyllabus" 10]⟩, ⟨[mkSpan "Ab Overview" 10]⟩,
         ⟨[mkSpan "Syllabus" 10]⟩]⟩]⟩]⟩

/-- C3 witness document: two consecutive identical heading lines. -/
def wdocC3 : Doc := ⟨[
  ⟨[⟨0, [⟨[mkSpan "Heading" 10]⟩, ⟨[mkSpan "Heading" 10]⟩,
         ⟨[mkSpan "Other" 10]⟩]⟩]⟩]⟩

/-- C4 witness document: exactly two distinct styles on pages 2..N. -/
def wdocC4 : Doc := ⟨[
  ⟨[⟨0, [⟨[mkSpan "Title" 20]⟩]⟩]⟩,
  ⟨[⟨0, [⟨[mkSpan "chapter" 16]⟩, ⟨[mkSpan "body" 10]⟩]⟩]⟩]⟩

/-- C5 counterexample page: a text block with a span whose size rounds to
0, so the code returns "Untitled" instead of the spec formula's value. -/
def cpageC5 : Page := ⟨[⟨0, [⟨[mkSpan "ab" (mkRat 1 5)]⟩]⟩]⟩

/-- C5 counterexample document. -/
def cdocC5 : Doc := ⟨[cpageC5]⟩

/-- C5 witness page: two sizes; only the larger contributes to the title. -/
def wpageC5 : Page := ⟨[⟨0, [⟨[mkSpan "Big Title" 20]⟩, ⟨[mkSpan "small note" 10]⟩]⟩]⟩

/-- C5 witness document. -/
def wdocC5 : Doc := ⟨[wpageC5]⟩

/-- C6 witness page: only a non-text (image) block. -/
def wpageC6 : Page := ⟨[⟨1, [⟨[mkSpan "caption" 12]⟩]⟩]⟩

/-- C6 witness document. -/
def wdocC6 : Doc := ⟨[wpageC6]⟩

/-- C7 witness document: a single page (no pages beyond index 0). -/
def wdocC7 : Doc := ⟨[⟨[⟨0, [⟨[mkSpan "Lonely Page" 14]⟩]⟩]⟩]⟩

/-- C9 witness document. -/
def wdocC9 : Doc := ⟨[
  ⟨[⟨0, [⟨[mkSpan "My Title" 20]⟩]⟩]⟩,
  ⟨[⟨0, [⟨[mkSpan "Chapter One" 16]⟩, ⟨[mkSpan "body text" 10]⟩]⟩]⟩]⟩

/-- C10 counterexample page: a max-size span whose text is literally
"Untitled". -/
def cpageC10 : Page := ⟨[⟨0, [⟨[mkSpan "Untitled" 10]⟩]⟩]⟩

/-- C10 counterexample document. -/
def cdocC10 : Doc := ⟨[cpageC10]⟩

/-- C10 witness page: spans present but all sizes round to 0. -/
def wpageC10 : Page := ⟨[⟨0, [⟨[mkSpan "tiny text" (mkRat 2 5)]⟩]⟩]⟩

/-- C10 witness document. -/
def wdocC10 : Doc := ⟨[wpageC10]⟩

/-! ### Helper lemmas: the ordered key set of the style histogram -/

theorem insertKey_nodup (l : List StyleKey) (k : StyleKey) (h : l.Nodup) :
    (insertKey l k).Nodup := by
  unfold insertKey
  split
  · exact h
  · next hk =>
    refine List.nodup_append.2 ⟨h, List.nodup_singleton k, ?_⟩
    intro a ha hb
    rw [List.mem_singleton] at hb
    exact hk (hb ▸ ha)

theorem mem_insertKey {l : List StyleKey} {k x : StyleKey} :
    x ∈ insertKey l k ↔ x ∈ l ∨ x = k := by
  unfold insertKey
  split
  · next hk =>
    constructor
    · exact Or.inl
    · rintro (h | rfl)
      · exact h
      · exact hk
  · simp [List.mem_append]

theorem foldl_insertKey_nodup :
    ∀ (l acc : List StyleKey), acc.Nodup → (l.foldl insertKey acc).Nodup
  | [], _, h => h
  | k :: l, acc, h => foldl_insertKey_nodup l _ (insertKey_nodup acc k h)

theorem mem_foldl_insertKey :
    ∀ (l acc : List StyleKey) (x : StyleKey),
      x ∈ l.foldl insertKey acc ↔ x ∈ acc ∨ x ∈ l
  | [], acc, x => by simp
  | k :: l, acc, x => by
    rw [List.foldl_cons, mem_foldl_insertKey l _ x, mem_insertKey]
    simp only [List.mem_cons]
    tauto

theorem styleKeys_nodup (doc : Doc) : (styleKeys doc).Nodup :=
  foldl_insertKey_nodup _ _ List.nodup_nil

theorem mem_styleKeys {doc : Doc} {k : StyleKey} :
    k ∈ styleKeys doc ↔ k ∈ styleObservations doc := by
  rw [styleKeys, mem_foldl_insertKey]
  simp

theorem insertDesc_perm (x : StyleKey) :
    ∀ l : List StyleKey, List.Perm (insertDesc x l) (x :: l)
  | [] => List.Perm.refl _
  | y :: ys => by
    rw [insertDesc]
    split
    · exact List.Perm.refl _
    · exact ((insertDesc_perm x ys).cons y).trans (List.Perm.swap x y ys)

theorem sortDesc_perm : ∀ l : List StyleKey, List.Perm (sortDesc l) l
  | [] => List.Perm.refl _
  | x :: xs =>
    (insertDesc_perm x (sortDesc xs)).trans ((sortDesc_perm xs).cons x)

theorem insertDesc_pairwise (x : StyleKey) (l : List StyleKey)
    (h : l.Pairwise (fun a b : StyleKey => b.1 ≤ a.1)) :
    (insertDesc x l).Pairwise (fun a b : StyleKey => b.1 ≤ a.1) := by
  induction l with
  | nil => simp [insertDesc]
  | cons y ys ih =>
    rw [insertDesc]
    rcases List.pairwise_cons.1 h with ⟨hy, hys⟩
    split
    · next hle =>
      refine List.pairwise_cons.2 ⟨?_, h⟩
      intro z hz
      rcases List.mem_cons.1 hz with rfl | hz'
      · exact hle
      · exact le_trans (hy z hz') hle
    · next hlt =>
      refine List.pairwise_cons.2 ⟨?_, ih hys⟩
      intro z hz
      rcases List.mem_cons.1 (((insertDesc_perm x ys).mem_iff).1 hz) with rfl | hz'
      · exact le_of_not_le hlt
      · exact hy z hz'

theorem sortDesc_pairwise :
    ∀ l : List StyleKey, (sortDesc l).Pairwise (fun a b : StyleKey => b.1 ≤ a.1)
  | [] => List.Pairwise.nil
  | x :: xs => insertDesc_pairwise x (sortDesc xs) (sortDesc_pairwise xs)

theorem sortedStyles_perm (doc : Doc) :
    List.Perm (sortedStyles doc) (styleKeys doc) :=
  sortDesc_perm _

theorem sortedStyles_nodup (doc : Doc) : (sortedStyles doc).Nodup :=
  (sortedStyles_perm doc).symm.nodup (styleKeys_nodup doc)

theorem sortedStyles_pairwise (doc : Doc) :
    (sortedStyles doc).Pairwise (fun a b : StyleKey => b.1 ≤ a.1) :=
  sortDesc_pairwise _

theorem mapLookup_zip_none :
    ∀ (l : List StyleKey) (v : List String) (k : StyleKey),
      k ∉ l → mapLookup (l.zip v) k = none
  | [], _, _, _ => rfl
  | _ :: _, [], _, _ => rfl
  | a :: l, b :: v, k, h => by
    have hka : ¬ k = a := fun e => h (e ▸ List.mem_cons_self a l)
    simp only [List.zip_cons_cons, mapLookup, if_neg hka]
    exact mapLookup_zip_none l v k (fun hm => h (List.mem_cons_of_mem a hm))

theorem mapLookup_cons_self (k : StyleKey) (v : String)
    (rest : List (StyleKey × String)) : mapLookup ((k, v) :: rest) k = some v := by
  simp [mapLookup]

theorem mapLookup_cons_ne {k a : StyleKey} (v : String)
    (rest : List (StyleKey × String)) (h : ¬ k = a) :
    mapLookup ((a, v) :: rest) k = mapLookup rest k := by
  simp [mapLookup, h]

theorem analyze_eq (doc : Doc) (hne : ¬ styleKeys doc = []) :
    analyze_document_styles doc =
      (if 2 < (sortedStyles doc).length then (sortedStyles doc).drop 1
       else sortedStyles doc).zip headingLevels := by
  rw [analyze_document_styles, if_neg hne]

/-! ### Claims about the style profiler -/

/-- C1: for a document with more than 2 distinct (rounded size, bold)
styles over substantial spans on pages 2..N (the ranked style list has at
least three entries), the largest-size style — ranked first — is absent
from the StyleMap, and the next three ranked styles map to H1, H2, H3. -/
theorem C1_outlier_rejection (doc : Doc) (top s₁ s₂ : StyleKey)
    (tail : List StyleKey)
    (h : sortedStyles doc = top :: s₁ :: s₂ :: tail) :
    (∀ k ∈ styleKeys doc, k.1 ≤ top.1) ∧
    mapLookup (analyze_document_styles doc) top = none ∧
    mapLookup (analyze_document_styles doc) s₁ = some "H1" ∧
    mapLookup (analyze_document_styles doc) s₂ = some "H2" ∧
    ∀ s₃ tl, tail = s₃ :: tl →
      mapLookup (analyze_document_styles doc) s₃ = some "H3" := by
  have hne : ¬ styleKeys doc = [] := by
    intro h0
    rw [sortedStyles, h0] at h
    simp [sortDesc] at h
  have hnd : (top :: s₁ :: s₂ :: tail).Nodup := h ▸ sortedStyles_nodup doc
  have hpw : (top :: s₁ :: s₂ :: tail).Pairwise (fun a b : StyleKey => b.1 ≤ a.1) :=
    h ▸ sortedStyles_pairwise doc
  have hperm := sortedStyles_perm doc
  simp only [List.nodup_cons, List.mem_cons, not_or] at hnd
  obtain ⟨⟨hts₁, hts₂, htt⟩, ⟨hs₁s₂, hs₁t⟩, hs₂t, _⟩ := hnd
  have hanalyze : analyze_document_styles doc
      = (s₁, "H1") :: (s₂, "H2") :: tail.zip ["H3"] := by
    rw [analyze_eq doc hne, h]
    rw [if_pos (by simp only [List.length_cons]; omega)]
    simp [headingLevels]
  refine ⟨?_, ?_, ?_, ?_, ?_⟩
  · intro k hk
    have hks : k ∈ top :: s₁ :: s₂ :: tail := h ▸ (hperm.mem_iff.2 hk)
    rcases List.mem_cons.1 hks with rfl | hk'
    · exact le_refl _
    · exact List.rel_of_pairwise_cons hpw hk'
  · rw [hanalyze, mapLookup_cons_ne _ _ hts₁, mapLookup_cons_ne _ _ hts₂]
    exact mapLookup_zip_none tail _ top htt
  · rw [hanalyze, mapLookup_cons_self]
  · rw [hanalyze, mapLookup_cons_ne _ _ (fun e : s₂ = s₁ => hs₁s₂ e.symm),
      mapLookup_cons_self]
  · intro s₃ tl htl
    subst htl
    rw [hanalyze]
    have h1 : ¬ s₃ = s₁ := fun e => hs₁t (e ▸ List.mem_cons_self s₃ tl)
    have h2 : ¬ s₃ = s₂ := fun e => hs₂t (e ▸ List.mem_cons_self s₃ tl)
    rw [List.zip_cons_cons, mapLookup_cons_ne _ _ h1, mapLookup_cons_ne _ _ h2,
      mapLookup_cons_self]

/-- C1 witness: a document whose pages 2..N show four distinct styles. -/
theorem C1_witness :
    (∀ k ∈ styleKeys wdocC1, k.1 ≤ (((20 : ℤ), false) : StyleKey).1) ∧
    mapLookup (analyze_document_styles wdocC1) ((20 : ℤ), false) = none ∧
    mapLookup (analyze_document_styles wdocC1) ((16 : ℤ), false) = some "H1" ∧
    mapLookup (analyze_document_styles wdocC1) ((13 : ℤ), false) = some "H2" ∧
    ∀ s₃ tl, ([(((10 : ℤ), false) : StyleKey)] : List StyleKey) = s₃ :: tl →
      mapLookup (analyze_document_styles wdocC1) s₃ = some "H3" :=
  C1_outlier_rejection wdocC1 (20, false) (16, false) (13, false)
    [(10, false)] (by decide)

/-- C4: with at most 2 distinct styles over substantial spans on pages
2..N there is no outlier rejection: the StyleMap has exactly one entry per
distinct style; a single style maps to H1 alone, and two styles map to H1
and H2 with the larger size first. -/
theorem C4_no_rejection (doc : Doc) (h : (styleKeys doc).length ≤ 2) :
    (analyze_document_styles doc).length = (styleKeys doc).length ∧
    (∀ k, styleKeys doc = [k] → analyze_document_styles doc = [(k, "H1")]) ∧
    (∀ a b, sortedStyles doc = [a, b] →
      b.1 ≤ a.1 ∧ List.Perm [a, b] (styleKeys doc) ∧
      analyze_document_styles doc = [(a, "H1"), (b, "H2")]) := by
  refine ⟨?_, ?_, ?_⟩
  · by_cases hk : styleKeys doc = []
    · rw [analyze_document_styles, if_pos hk, hk]
      rfl
    · have hlen : (sortedStyles doc).length = (styleKeys doc).length :=
        (sortedStyles_perm doc).length_eq
      rw [analyze_eq doc hk, if_neg (by omega), List.length_zip, hlen]
      simp only [headingLevels, List.length_cons, List.length_nil]
      omega
  · intro k hk
    have hs : sortedStyles doc = [k] := by
      rw [sortedStyles, hk]
      simp [sortDesc, insertDesc]
    rw [analyze_eq doc (by rw [hk]; simp), hs, if_neg (by simp)]
    rfl
  · intro a b hs
    have hperm : List.Perm [a, b] (styleKeys doc) := hs ▸ sortedStyles_perm doc
    have hne : ¬ styleKeys doc = [] := by
      intro h0
      have := hperm.length_eq
      rw [h0] at this
      simp at this
    have hpw : ([a, b] : List StyleKey).Pairwise (fun x y : StyleKey => y.1 ≤ x.1) :=
      hs ▸ sortedStyles_pairwise doc
    refine ⟨?_, hperm, ?_⟩
    · exact List.rel_of_pairwise_cons hpw (List.mem_cons_self b [])
    · rw [analyze_eq doc hne, hs, if_neg (by simp)]
      rfl

/-- C4 witness: a document with exactly two distinct styles on page 2. -/
theorem C4_witness :
    (analyze_document_styles wdocC4).length = (styleKeys wdocC4).length ∧
    (∀ k, styleKeys wdocC4 = [k] →
      analyze_document_styles wdocC4 = [(k, "H1")]) ∧
    (∀ a b, sortedStyles wdocC4 = [a, b] →
      b.1 ≤ a.1 ∧ List.Perm [a, b] (styleKeys wdocC4) ∧
      analyze_document_styles wdocC4 = [(a, "H1"), (b, "H2")]) :=
  C4_no_rejection wdocC4 (by decide)

/-- C8: the StyleMap has at most 3 entries, every level it assigns is one
of H1, H2, H3, and every key was observed in some substantial span of a
text block on pages 2..N. -/
theorem C8_stylemap_invariants (doc : Doc) :
    (analyze_document_styles doc).length ≤ 3 ∧
    ∀ p ∈ analyze_document_styles doc,
      p.2 ∈ headingLevels ∧ p.1 ∈ styleObservations doc := by
  by_cases hk : styleKeys doc = []
  · rw [analyze_document_styles, if_pos hk]
    exact ⟨by simp, by simp⟩
  · rw [analyze_eq doc hk]
    constructor
    · rw [List.length_zip]
      simp only [headingLevels, List.length_cons, List.length_nil]
      omega
    · intro p hp
      have hp' : (p.1, p.2) ∈
          (if 2 < (sortedStyles doc).length then (sortedStyles doc).drop 1
           else sortedStyles doc).zip headingLevels := by simpa using hp
      obtain ⟨h1, h2⟩ := List.of_mem_zip hp'
      refine ⟨h2, ?_⟩
      have hmem : p.1 ∈ sortedStyles doc := by
        revert h1
        split
        · exact fun h1 => List.drop_subset _ _ h1
        · exact id
      exact mem_styleKeys.1 ((sortedStyles_perm doc).mem_iff.1 hmem)

/-- C7: when the style histogram over pages 2..N is empty — in particular
for any single-page document — the profiler returns an empty StyleMap, the
outline builder returns an empty outline, and the title is still computed
(no fault). -/
theorem C7_degenerate (doc : Doc)
    (h : doc.pages.length ≤ 1 ∨ styleObservations doc = []) :
    analyze_document_styles doc = [] ∧
    build_outline doc (analyze_document_styles doc) = [] ∧
    (¬ doc.pages = [] → (extract_title doc).isSome = true) := by
  have hobs : styleObservations doc = [] := by
    rcases h with h | h
    · rw [styleObservations, List.drop_eq_nil_of_le h]
      rfl
    · exact h
  have hk : styleKeys doc = [] := by rw [styleKeys, hobs]; rfl
  have ha : analyze_document_styles doc = [] := by
    rw [analyze_document_styles, if_pos hk]
  refine ⟨ha, ?_, ?_⟩
  · rw [ha, build_outline, if_pos rfl]
  · intro hne
    rcases hp : doc.pages with _ | ⟨p, rest⟩
    · exact absurd hp hne
    · simp only [extract_title, hp]
      split <;> rfl

/-- C7 witness: a single-page document. -/
theorem C7_witness :
    analyze_document_styles wdocC7 = [] ∧
    build_outline wdocC7 (analyze_document_styles wdocC7) = [] ∧
    (¬ wdocC7.pages = [] → (extract_title wdocC7).isSome = true) :=
  C7_degenerate wdocC7 (Or.inl (by decide))

/-- C9: the pipeline is deterministic — two runs of title extraction,
style profiling and outline building on the same parsed document yield the
same Result. -/
theorem C9_deterministic (doc : Doc) (r₁ r₂ : Option Result)
    (h₁ : r₁ = runPipeline doc) (h₂ : r₂ = runPipeline doc) : r₁ = r₂ :=
  h₁.trans h₂.symm

/-- C9 witness: both runs on a concrete document produce the concrete
Result computed by the pipeline. -/
theorem C9_witness :
    (some (⟨"My Title", [⟨"H1", "Chapter One", 2⟩, ⟨"H2", "body text", 2⟩]⟩ : Result)
        : Option Result) =
      some ⟨"My Title", [⟨"H1", "Chapter One", 2⟩, ⟨"H2", "body text", 2⟩]⟩ :=
  C9_deterministic wdocC9 _ _ (by decide) (by decide)

/-! ### Claims about the outline builder -/

theorem pyLower_length (s : String) : (pyLower s).length = s.length := by
  show (s.data.map Char.toLower).length = s.data.length
  simp

/-- C2 counterexample: the claim's condition — some entry of the outline
contains "overview" — holds (the first entry), the "Syllabus" line is
recognized, yet the builder creates a new standalone "Syllabus" entry
because the LAST entry ("Bcd") does not contain "overview". -/
theorem C2_counterexample :
    build_outline cdocC2 mapH1 =
      [⟨"H1", "A Overview", 1⟩, ⟨"H1", "Bcd", 1⟩, ⟨"H1", "Syllabus", 1⟩] ∧
    hasSubstr (pyLower "A Overview") "overview" = true ∧
    pyLower (lineText lnSyl) = "syllabus" ∧
    (mapLookup mapH1 (spanStyleKey (mkSpan "Syllabus" 10))).isSome = true ∧
    outlineStep mapH1 [⟨"H1", "A Overview", 1⟩, ⟨"H1", "Bcd", 1⟩] (1, lnSyl) =
      [⟨"H1", "A Overview", 1⟩, ⟨"H1", "Bcd", 1⟩, ⟨"H1", "Syllabus", 1⟩] := by
  refine ⟨by decide, by decide, by decide, by decide, by decide⟩

/-- C2 (amended): when a scanned line lowercases to exactly "syllabus", its
style key is recognized, and the LAST outline entry's text contains
"overview", the line's text is appended to that last entry with no
separator, no new entry is created (the length is unchanged), and the
merged entry keeps the previous entry's level and page. -/
theorem C2_merge (m : List (StyleKey × String)) (outline : List OutlineEntry)
    (prev : OutlineEntry) (pn : ℕ) (line : Line) (s : Span) (lvl : String)
    (hspan : line.spans.head? = some s)
    (hsyl : pyLower (lineText line) = "syllabus")
    (hrec : mapLookup m (spanStyleKey s) = some lvl)
    (hlast : outline.getLast? = some prev)
    (hov : hasSubstr (pyLower prev.text) "overview" = true) :
    outlineStep m outline (pn, line) =
      outline.dropLast ++ [⟨prev.level, prev.text ++ lineText line, prev.page⟩] ∧
    (outlineStep m outline (pn, line)).length = outline.length ∧
    (outlineStep m outline (pn, line)).getLast? =
      some ⟨prev.level, prev.text ++ lineText line, prev.page⟩ := by
  obtain ⟨sp0, rest, hsp⟩ : ∃ sp0 rest, line.spans = sp0 :: rest := by
    cases hl : line.spans with
    | nil => rw [hl] at hspan; simp at hspan
    | cons a l => exact ⟨a, l, rfl⟩
  have hs0 : sp0 = s := by
    rw [hsp] at hspan
    simpa using hspan
  subst hs0
  have hlen : ¬ (lineText line).length < 3 := by
    have h8 := congrArg String.length hsyl
    rw [pyLower_length] at h8
    rw [h8]
    decide
  have hnonnil : outline ≠ [] := by
    intro h0
    rw [h0] at hlast
    simp at hlast
  have hmain : outlineStep m outline (pn, line) =
      outline.dropLast ++ [⟨prev.level, prev.text ++ lineText line, prev.page⟩] := by
    simp only [outlineStep, hsp]
    rw [if_neg hlen, hrec, hlast]
    simp only [if_pos (And.intro hsyl hov)]
  refine ⟨hmain, ?_, ?_⟩
  · rw [hmain]
    have hpos : 0 < outline.length := List.length_pos.2 hnonnil
    simp only [List.length_append, List.length_dropLast, List.length_cons,
      List.length_nil]
    omega
  · rw [hmain]
    exact List.getLast?_concat _

/-- C2 witness: a "... Course Overview" entry followed by a recognized
"Syllabus" line merges into a single entry with no separator. -/
theorem C2_witness :
    outlineStep mapH1 [wprevC2] (1, lnSyl) =
      ([wprevC2] : List OutlineEntry).dropLast ++
        [⟨wprevC2.level, wprevC2.text ++ lineText lnSyl, wprevC2.page⟩] ∧
    (outlineStep mapH1 [wprevC2] (1, lnSyl)).length =
      ([wprevC2] : List OutlineEntry).length ∧
    (outlineStep mapH1 [wprevC2] (1, lnSyl)).getLast? =
      some ⟨wprevC2.level, wprevC2.text ++ lineText lnSyl, wprevC2.page⟩ :=
  C2_merge mapH1 [wprevC2] wprevC2 1 lnSyl (mkSpan "Syllabus" 10) "H1"
    (by decide) (by decide) (by decide) (by decide) (by decide)

/-- C3 counterexample: the merge heuristic glues "Syllabus" onto an
"Ab Overview" entry, reproducing the text of the entry before it, so the
final outline carries two consecutive entries with identical text. -/
theorem C3_counterexample :
    build_outline cdocC3 mapH1 =
      [⟨"H1", "Ab OverviewSyllabus", 1⟩, ⟨"H1", "Ab OverviewSyllabus", 1⟩] ∧
    ¬ List.Chain' (fun a b : OutlineEntry => ¬ a.text = b.text)
        (build_outline cdocC3 mapH1) := by
  have h1 : build_outline cdocC3 mapH1 =
      [⟨"H1", "Ab OverviewSyllabus", 1⟩, ⟨"H1", "Ab OverviewSyllabus", 1⟩] := by
    decide
  refine ⟨h1, ?_⟩
  rw [h1]
  intro hch
  exact (List.chain'_cons.1 hch).1 rfl

/-- One step of the outline fold preserves the no-adjacent-duplicates
chain, provided the line does not trigger the merge heuristic. -/
theorem outlineStep_chain (m : List (StyleKey × String))
    (outline : List OutlineEntry) (pl : ℕ × Line)
    (hns : ¬ pyLower (lineText pl.2) = "syllabus")
    (hchain : List.Chain' (fun a b : OutlineEntry => ¬ a.text = b.text) outline) :
    List.Chain' (fun a b : OutlineEntry => ¬ a.text = b.text)
      (outlineStep m outline pl) := by
  obtain ⟨pn, line⟩ := pl
  simp only [outlineStep]
  split
  · exact hchain
  · split
    · exact hchain
    · split
      · exact hchain
      · split
        · exact List.chain'_singleton _
        · next prev heq =>
          split
          · next hcond => exact absurd hcond.1 hns
          · split
            · next hneq =>
              refine List.chain'_append.2 ⟨hchain, List.chain'_singleton _, ?_⟩
              intro x hx y hy
              rw [heq] at hx
              simp only [Option.mem_def, Option.some.injEq] at hx
              simp only [List.head?_cons, Option.mem_def, Option.some.injEq] at hy
              subst hx
              subst hy
              exact hneq
            · exact hchain

/-- The outline fold preserves the chain over a whole scan. -/
theorem foldl_outlineStep_chain (m : List (StyleKey × String)) :
    ∀ (l : List (ℕ × Line)) (outline : List OutlineEntry),
      (∀ pl ∈ l, ¬ pyLower (lineText pl.2) = "syllabus") →
      List.Chain' (fun a b : OutlineEntry => ¬ a.text = b.text) outline →
      List.Chain' (fun a b : OutlineEntry => ¬ a.text = b.text)
        (l.foldl (outlineStep m) outline)
  | [], _, _, hc => hc
  | pl :: l, outline, h, hc =>
    foldl_outlineStep_chain m l _ (fun q hq => h q (List.mem_cons_of_mem pl hq))
      (outlineStep_chain m outline pl (h pl (List.mem_cons_self pl l)) hc)

/-- C3 (amended): a candidate entry whose text equals the immediately
preceding entry's text is dropped, and for every document none of whose
scanned lines lowercases to exactly "syllabus" (so the merge heuristic
never fires) the final outline has no two consecutive entries with
identical text. -/
theorem C3_no_adjacent_dup (doc : Doc) (m : List (StyleKey × String))
    (h : ∀ pl ∈ docLines doc, ¬ pyLower (lineText pl.2) = "syllabus") :
    List.Chain' (fun a b : OutlineEntry => ¬ a.text = b.text)
      (build_outline doc m) := by
  rw [build_outline]
  split
  · exact List.chain'_nil
  · exact foldl_outlineStep_chain m (docLines doc) [] h List.chain'_nil

/-- C3 witness: two consecutive identical heading lines produce a
duplicate-free outline. -/
theorem C3_witness :
    List.Chain' (fun a b : OutlineEntry => ¬ a.text = b.text)
      (build_outline wdocC3 mapH1) :=
  C3_no_adjacent_dup wdocC3 mapH1 (by decide)

/-! ### Helper lemmas: the `max_size` fold of the title extractor -/

theorem ite_lt_eq_max (m r : ℤ) : (if m < r then r else m) = max m r := by
  split
  · next h => exact (max_eq_right (le_of_lt h)).symm
  · next h => exact (max_eq_left (le_of_not_lt h)).symm

theorem spanFold_eq (spans : List Span) (a : ℤ) :
    spans.foldl
      (fun m span => if m < pyRound span.size then pyRound span.size else m) a
      = ((spans.map fun s => pyRound s.size).foldl max a) := by
  induction spans generalizing a with
  | nil => rfl
  | cons s l ih =>
    simp only [List.foldl_cons, List.map_cons]
    rw [ite_lt_eq_max]
    exact ih _

theorem lineFold_eq (lines : List Line) (a : ℤ) :
    lines.foldl
      (fun m line =>
        line.spans.foldl
          (fun m span => if m < pyRound span.size then pyRound span.size else m) m) a
      = (((lines.flatMap Line.spans).map fun s => pyRound s.size).foldl max a) := by
  induction lines generalizing a with
  | nil => rfl
  | cons l ls ih =>
    simp only [List.foldl_cons, List.flatMap_cons, List.map_append, List.foldl_append]
    rw [spanFold_eq]
    exact ih _

theorem maxSizeFold_eq (blocks : List Block) :
    maxSizeFold blocks = (((pageSpans blocks).map fun s => pyRound s.size).foldl max 0) := by
  have key : ∀ (bs : List Block) (a : ℤ),
      bs.foldl
        (fun m block =>
          if block.type = 0 then
            block.lines.foldl
              (fun m line =>
                line.spans.foldl
                  (fun m span =>
                    if m < pyRound span.size then pyRound span.size else m) m) m
          else m) a
        = (((pageSpans bs).map fun s => pyRound s.size).foldl max a) := by
    intro bs
    induction bs with
    | nil => intro a; rfl
    | cons b bs ih =>
      intro a
      simp only [List.foldl_cons, pageSpans, List.flatMap_cons, List.map_append,
        List.foldl_append]
      by_cases hb : b.type = 0
      · rw [if_pos hb, if_pos hb, lineFold_eq]
        exact ih _
      · rw [if_neg hb, if_neg hb]
        simpa [pageSpans] using ih a
  exact key blocks 0

theorem le_foldl_max (l : List ℤ) (a : ℤ) : a ≤ l.foldl max a := by
  induction l generalizing a with
  | nil => exact le_refl a
  | cons x l ih => exact le_trans (le_max_left a x) (ih _)

theorem foldl_max_le (l : List ℤ) (a c : ℤ) (ha : a ≤ c) (h : ∀ x ∈ l, x ≤ c) :
    l.foldl max a ≤ c := by
  induction l generalizing a with
  | nil => exact ha
  | cons x l ih =>
    exact ih _ (max_le ha (h x (List.mem_cons_self x l)))
      (fun y hy => h y (List.mem_cons_of_mem x hy))

theorem le_foldl_max_of_mem {l : List ℤ} {x : ℤ} (hx : x ∈ l) (a : ℤ) :
    x ≤ l.foldl max a := by
  induction l generalizing a with
  | nil => cases hx
  | cons y l ih =>
    rcases List.mem_cons.1 hx with rfl | h
    · exact le_trans (le_max_right a x) (le_foldl_max l _)
    · exact ih h _

theorem foldl_max_shift (l : List ℤ) (a b : ℤ) :
    l.foldl max (max a b) = max a (l.foldl max b) := by
  induction l generalizing b with
  | nil => rfl
  | cons x l ih =>
    simp only [List.foldl_cons]
    rw [max_assoc, ih]

theorem mem_pyStrip {c : Char} {s : String} (h : c ∈ (pyStrip s).data) :
    c ∈ s.data := by
  have h1 : c ∈ (s.data.dropWhile Char.isWhitespace).reverse.dropWhile Char.isWhitespace := by
    simpa [pyStrip] using h
  have h2 := (List.dropWhile_sublist Char.isWhitespace).subset h1
  rw [List.mem_reverse] at h2
  exact (List.dropWhile_sublist Char.isWhitespace).subset h2

theorem replaceNL_no_newline (s : String) : '\n' ∉ (replaceNL s).data := by
  intro h
  obtain ⟨c, _, he⟩ := List.mem_map.1 (by simpa [replaceNL] using h)
  by_cases hc : c = '\n'
  · rw [if_pos hc] at he
    exact absurd he (by decide)
  · rw [if_neg hc] at he
    exact hc he

/-! ### Claims about the title extractor -/

/-- C6: a document whose page 1 has no text blocks yields the sentinel
title "Untitled", with no fault. -/
theorem C6_untitled_no_text_blocks (doc : Doc) (p : Page) (rest : List Page)
    (hd : doc.pages = p :: rest) (h : ∀ b ∈ p.blocks, ¬ b.type = 0) :
    extract_title doc = some "Untitled" := by
  have haux : ∀ bs : List Block, (∀ b ∈ bs, ¬ b.type = 0) → pageSpans bs = [] := by
    intro bs
    induction bs with
    | nil => exact fun _ => rfl
    | cons b bs ih =>
      intro hb
      simp only [pageSpans, List.flatMap_cons,
        if_neg (hb b (List.mem_cons_self b bs)), List.nil_append]
      exact ih (fun x hx => hb x (List.mem_cons_of_mem b hx))
  have hps : pageSpans p.blocks = [] := haux p.blocks h
  have hmax : maxSizeFold p.blocks = 0 := by
    rw [maxSizeFold_eq, hps]
    rfl
  simp only [extract_title, hd]
  rw [if_pos hmax]

/-- C6 witness: a page-1 consisting of a single image block. -/
theorem C6_witness : extract_title wdocC6 = some "Untitled" :=
  C6_untitled_no_text_blocks wdocC6 wpageC6 [] rfl (by decide)

/-- C10 counterexample: the claim's "exactly when" fails — this document's
page 1 holds a size-10 span whose text is literally "Untitled", so the
extractor returns "Untitled" even though a span rounds to a size of at
least 1. -/
theorem C10_counterexample :
    extract_title cdocC10 = some "Untitled" ∧ ¬ noLargeSpan cpageC10 := by
  refine ⟨by decide, by decide⟩

/-- C10 (amended): whenever no span in a text block of page 1 has rounded
size at least 1 — in particular when every span's size rounds to 0 — the
extractor returns "Untitled" (the converse direction fails, as the title
assembled from max-size spans can itself be the string "Untitled"). -/
theorem C10_untitled (doc : Doc) (p : Page) (rest : List Page)
    (hd : doc.pages = p :: rest) (h : noLargeSpan p) :
    extract_title doc = some "Untitled" := by
  have hmax : maxSizeFold p.blocks = 0 := by
    rw [maxSizeFold_eq]
    refine le_antisymm ?_ (le_foldl_max _ _)
    refine foldl_max_le _ _ _ (le_refl 0) ?_
    intro x hx
    obtain ⟨s, hs, rfl⟩ := List.mem_map.1 hx
    have := h s hs
    omega
  simp only [extract_title, hd]
  rw [if_pos hmax]

/-- C10 witness: page-1 spans whose sizes all round to 0. -/
theorem C10_witness : extract_title wdocC10 = some "Untitled" :=
  C10_untitled wdocC10 wpageC10 [] rfl (by decide)

/-- C5 counterexample: a page 1 that does have a text block with spans but
whose only span's size rounds to 0; the code returns "Untitled" while the
claim's formula assembles the title "ab" from the (rounded-size-0) maximum,
so the claimed equality fails. -/
theorem C5_counterexample :
    (∃ b ∈ cpageC5.blocks, b.type = 0 ∧ ∃ l ∈ b.lines, ¬ l.spans = []) ∧
    extract_title cdocC5 = some "Untitled" ∧
    titleSpec cpageC5.blocks = some "ab" ∧
    ¬ extract_title cdocC5 = titleSpec cpageC5.blocks := by
  refine ⟨by decide, by decide, by decide, by decide⟩

/-- C5 (amended): for a document whose page 1 has a span of rounded size at
least 1 in a text block, the extracted title equals the spec formula — per
line, the no-separator concatenation of the texts of exactly the spans at
the page-wide maximum rounded size, kept when non-empty after stripping;
parts joined by single spaces, newlines replaced by spaces, the whole
stripped — and the title contains no newline. -/
theorem C5_title (doc : Doc) (p : Page) (rest : List Page)
    (hd : doc.pages = p :: rest)
    (h : ∃ s ∈ pageSpans p.blocks, 1 ≤ pyRound s.size) :
    extract_title doc = titleSpec p.blocks ∧ noNewline (extract_title doc) := by
  have hM1 : 1 ≤ maxSizeFold p.blocks := by
    obtain ⟨s, hs, h1⟩ := h
    rw [maxSizeFold_eq]
    exact le_trans h1 (le_foldl_max_of_mem (List.mem_map_of_mem _ hs) 0)
  have hMne : ¬ maxSizeFold p.blocks = 0 := by omega
  have hmax? : ((pageSpans p.blocks).map fun s => pyRound s.size).max?
      = some (maxSizeFold p.blocks) := by
    rcases hl : (pageSpans p.blocks).map fun s => pyRound s.size with _ | ⟨x, xs⟩
    · rw [maxSizeFold_eq, hl] at hM1
      simp at hM1
    · have hfold : maxSizeFold p.blocks = max 0 (xs.foldl max x) := by
        rw [maxSizeFold_eq, hl]
        show (xs.foldl max (max 0 x)) = max 0 (xs.foldl max x)
        exact foldl_max_shift xs 0 x
      rcases max_choice 0 (xs.foldl max x) with hc | hc
      · exfalso
        rw [hfold, hc] at hM1
        omega
      · rw [hl]
        show some (xs.foldl max x) = some (maxSizeFold p.blocks)
        exact congrArg some (hfold.trans hc).symm
  constructor
  · simp only [extract_title, hd]
    rw [if_neg hMne]
    simp only [titleSpec]
    rw [hmax?]
    rfl
  · intro t ht
    simp only [extract_title, hd, if_neg hMne, Option.mem_def,
      Option.some.injEq] at ht
    subst ht
    exact fun hc => replaceNL_no_newline _ (mem_pyStrip hc)

/-- C5 witness: a two-size page 1 whose title is assembled from the
max-size line only. -/
theorem C5_witness :
    extract_title wdocC5 = titleSpec wpageC5.blocks ∧
    noNewline (extract_title wdocC5) :=
  C5_title wdocC5 wpageC5 [] rfl (by decide)

end OutlineExtractor
